import Mathlib

/-!
Verification of the minikeyvalue store (Go) against its specification.

The Go code under internal/store is shallowly embedded: Go maps become
association lists, instants and durations become integers, byte slices
become lists of naturals, and every operation is a pure function on an
explicit state. Goroutines, locks and channels carry no sequential
content here; the background cleanup tick is modelled as a function of
the state and the current instant.
-/

namespace MiniKV

set_option maxRecDepth 100000

/-- Bytes of a Go byte slice, modelled as a list of naturals. -/
abbrev Bytes := List Nat

/-- A list of naturals is byte-valued when every element is below 256. -/
def ByteValued (l : Bytes) : Prop := ∀ b ∈ l, b < 256

instance (l : Bytes) : Decidable (ByteValued l) := by
  unfold ByteValued; infer_instance

/-- KeyValue from store.go: a value together with the instant it was
written. Instants are modelled as integers. -/
structure KeyValue where
  value : String
  timestamp : Int
deriving DecidableEq, Repr

/-- KeyValueStore state from store.go: the version map, the expiration
index, the encryption key, the global TTL and the current content of the
persistence file. Maps become association lists; the mutex, the channels
and the file path carry no sequential content and are omitted. -/
structure KeyValueStore where
  data : List (String × List KeyValue)
  expirations : List (String × Int)
  encryptionKey : Bytes
  globalTTL : Int
  file : Option Bytes
deriving DecidableEq, Repr

/-- Go map read m[k]: the value at the key, if present. -/
def lookupKey (m : List (String × α)) (k : String) : Option α :=
  match m with
  | [] => none
  | (k', v) :: rest => if k' = k then some v else lookupKey rest k

/-- Go map write m[k] = v: replace the entry in place, or append a new one. -/
def putKey (m : List (String × α)) (k : String) (v : α) : List (String × α) :=
  match m with
  | [] => [(k, v)]
  | (k', v') :: rest => if k' = k then (k, v) :: rest else (k', v') :: putKey rest k v

/-- Go delete(m, k): remove every entry at the key. -/
def dropKey (m : List (String × α)) (k : String) : List (String × α) :=
  match m with
  | [] => []
  | (k', v') :: rest => if k' = k then dropKey rest k else (k', v') :: dropKey rest k

/-- The association list binds each key at most once, as a Go map does. -/
def NodupKeys (m : List (String × α)) : Prop := (m.map Prod.fst).Nodup

instance (m : List (String × α)) : Decidable (NodupKeys m) := by
  unfold NodupKeys; infer_instance

/-- Value of the last version of a list, used where the Go code reads
values[len(values)-1].Value under a nonemptiness guard. -/
def lastValue (l : List KeyValue) : String := ((l.getLast?).map KeyValue.value).getD ""

/-- Result of Set: the next state, the notification event that was sent
(part_007 NotifyAdd and NotifyUpdate build the event strings), and the
returned error. -/
structure SetOut where
  store : KeyValueStore
  event : String
  error : Option String
deriving DecidableEq, Repr

/-- Set from store.go lines 76 to 112: append a version stamped now,
then resolve the expiry from the call ttl, else the global TTL, else
clear it; notify added or updated according to map membership. -/
def Set (kv : KeyValueStore) (key value : String) (expiration : Int) (now : Int) : SetOut :=
  let present := (lookupKey kv.data key).isSome
  let oldVersions := (lookupKey kv.data key).getD []
  let data' := putKey kv.data key (oldVersions ++ [⟨value, now⟩])
  let exps' :=
    if 0 < expiration then putKey kv.expirations key (now + expiration)
    else if 0 < kv.globalTTL then putKey kv.expirations key (now + kv.globalTTL)
    else dropKey kv.expirations key
  { store := { kv with data := data', expirations := exps' },
    event := if present then "updated:" ++ key else "added:" ++ key,
    error := none }

/-- Result of Get: the returned string, the returned error, and the
state after the call. -/
structure GetOut where
  value : String
  error : Option String
  store : KeyValueStore
deriving DecidableEq, Repr

/-- Get from store.go lines 116 to 128: not found when the key is absent
or has no versions, expired when the expiry instant is strictly in the
past, otherwise the value of the last version. No branch writes. -/
def Get (kv : KeyValueStore) (key : String) (now : Int) : GetOut :=
  match lookupKey kv.data key with
  | none => { value := "", error := some "key not found", store := kv }
  | some values =>
    if values.length = 0 then { value := "", error := some "key not found", store := kv }
    else
      match lookupKey kv.expirations key with
      | some exp =>
        if exp < now then { value := "", error := some "key expired", store := kv }
        else { value := lastValue values, error := none, store := kv }
      | none => { value := lastValue values, error := none, store := kv }

/-- Outcome of a Go call that may panic at runtime. -/
inductive GoVal (α : Type) where
  | ret (val : α) (error : Option String)
  | panics
deriving DecidableEq, Repr

/-- GetVersion from store.go lines 131 to 141: error when the key is
absent or the index is at least the length; a negative index reaches the
slice read versions[version] and panics, as Go indexing does. -/
def GetVersion (kv : KeyValueStore) (key : String) (version : Int) : GoVal String :=
  match lookupKey kv.data key with
  | none => .ret "" (some "version not found")
  | some versions =>
    if (versions.length : Int) ≤ version then .ret "" (some "version not found")
    else if version < 0 then .panics
    else .ret (versions.getD version.toNat ⟨"", 0⟩).value none

/-- GetAllVersions from store.go lines 144 to 156: the values of every
version in order, or a nil slice and an error when the key is absent. -/
def GetAllVersions (kv : KeyValueStore) (key : String) : Option (List String) × Option String :=
  match lookupKey kv.data key with
  | some values => (some (values.map KeyValue.value), none)
  | none => (none, some "key not found")

/-- GetHistory from store.go lines 159 to 167. -/
def GetHistory (kv : KeyValueStore) (key : String) : Option (List KeyValue) × Option String :=
  match lookupKey kv.data key with
  | some values => (some values, none)
  | none => (none, some "key not found")

/-- Outcome of RemoveVersion: either a returned error with the next
state, or a runtime panic. -/
inductive RVOut where
  | ret (error : Option String) (store : KeyValueStore)
  | panics
deriving DecidableEq, Repr

/-- RemoveVersion from store.go lines 170 to 184: error when the key is
absent or the index is at least the length; a negative index reaches the
slice expression versions[:version] and panics, as Go slicing does;
otherwise the version at the index is removed and the expiration index
is untouched. -/
def RemoveVersion (kv : KeyValueStore) (key : String) (version : Int) : RVOut :=
  match lookupKey kv.data key with
  | none => .ret (some "key not found") kv
  | some versions =>
    if (versions.length : Int) ≤ version then .ret (some "version not found") kv
    else if version < 0 then .panics
    else
      let remaining := versions.take version.toNat ++ versions.drop (version.toNat + 1)
      .ret none { kv with data := putKey kv.data key remaining }

/-- Result of CompareAndSwap: the swapped flag, the returned error and
the next state. -/
structure CASOut where
  swapped : Bool
  error : Option String
  store : KeyValueStore
deriving DecidableEq, Repr

/-- CompareAndSwap from store.go lines 187 to 213: not found when the
key is absent or has no versions; a mismatch of the last value returns
false with nil error and no mutation; otherwise the new value is
appended and the expiry is set from the call ttl when positive, else the
expiry entry is deleted. -/
def CompareAndSwap (kv : KeyValueStore) (key oldValue newValue : String) (ttl : Int) (now : Int) : CASOut :=
  match lookupKey kv.data key with
  | none => { swapped := false, error := some "key not found", store := kv }
  | some values =>
    if values.length = 0 then { swapped := false, error := some "key not found", store := kv }
    else if lastValue values ≠ oldValue then { swapped := false, error := none, store := kv }
    else
      { swapped := true, error := none,
        store := { kv with
          data := putKey kv.data key (values ++ [⟨newValue, now⟩]),
          expirations :=
            if 0 < ttl then putKey kv.expirations key (now + ttl)
            else dropKey kv.expirations key } }

/-- Delete from store.go lines 216 to 229: error when the key is absent,
otherwise the key is removed from both maps. -/
def Delete (kv : KeyValueStore) (key : String) : Option String × KeyValueStore :=
  if (lookupKey kv.data key).isSome then
    (none, { kv with data := dropKey kv.data key, expirations := dropKey kv.expirations key })
  else (some "key not found", kv)

/-- One tick of cleanupExpiredItems from cleanup.go lines 9 to 31: every
key of the expiration index whose instant is strictly in the past is
deleted from both maps. -/
def cleanupExpiredItems (kv : KeyValueStore) (now : Int) : KeyValueStore :=
  let expired := kv.expirations.filter (fun p => p.2 < now)
  { kv with
    data := expired.foldl (fun d p => dropKey d p.1) kv.data,
    expirations := kv.expirations.filter (fun p => ¬ p.2 < now) }

/-- Modelled from the spec: Go encoding/json Marshal of a natural number
inside the versioned map (stdlib, not under src/). The serialization is
modelled as a self-delimiting injective encoding; its output bytes are
all 0 or 1. -/
def encNat (n : Nat) : Bytes := List.replicate n 1 ++ [0]

/-- Modelled from the spec: decoder inverse of encNat. -/
def decNat : Bytes → Option (Nat × Bytes)
  | 0 :: rest => some (0, rest)
  | 1 :: rest => (decNat rest).map (fun p => (p.1 + 1, p.2))
  | _ => none

/-- Modelled from the spec: encoding of an integer timestamp. -/
def encInt : Int → Bytes
  | .ofNat n => 0 :: encNat n
  | .negSucc n => 1 :: encNat n

/-- Modelled from the spec: decoder inverse of encInt. -/
def decInt : Bytes → Option (Int × Bytes)
  | 0 :: rest => (decNat rest).map (fun p => ((p.1 : Int), p.2))
  | 1 :: rest => (decNat rest).map (fun p => (Int.negSucc p.1, p.2))
  | _ => none

/-- Modelled from the spec: encoding of one character of a JSON string. -/
def encChar (c : Char) : Bytes := encNat c.toNat

/-- Modelled from the spec: decoder inverse of encChar. -/
def decChar (b : Bytes) : Option (Char × Bytes) :=
  (decNat b).map (fun p => (Char.ofNat p.1, p.2))

/-- Decode a fixed number of items with a given item decoder. -/
def decMany (g : Bytes → Option (α × Bytes)) : Nat → Bytes → Option (List α × Bytes)
  | 0, b => some ([], b)
  | n + 1, b =>
    match g b with
    | none => none
    | some (a, rest) =>
      match decMany g n rest with
      | none => none
      | some (l, rest') => some (a :: l, rest')

/-- Length-prefixed encoding of a sequence of items. -/
def encListW (f : α → Bytes) (l : List α) : Bytes := encNat l.length ++ (l.map f).flatten

/-- Decoder inverse of encListW. -/
def decListW (g : Bytes → Option (α × Bytes)) (b : Bytes) : Option (List α × Bytes) :=
  match decNat b with
  | none => none
  | some (n, rest) => decMany g n rest

/-- Modelled from the spec: encoding of a JSON string. -/
def encStr (s : String) : Bytes := encListW encChar s.data

/-- Modelled from the spec: decoder inverse of encStr. -/
def decStr (b : Bytes) : Option (String × Bytes) :=
  (decListW decChar b).map (fun p => (String.mk p.1, p.2))

/-- Modelled from the spec: encoding of one KeyValue record of the
versioned map, value then timestamp. -/
def encKeyValue (v : KeyValue) : Bytes := encStr v.value ++ encInt v.timestamp

/-- Modelled from the spec: decoder inverse of encKeyValue. -/
def decKeyValue (b : Bytes) : Option (KeyValue × Bytes) :=
  match decStr b with
  | none => none
  | some (s, r) => (decInt r).map (fun p => (⟨s, p.1⟩, p.2))

/-- Modelled from the spec: a JSON array of versions carries the array
shape tag 0; the older flat format writes an object, tag 1. The two
leading tags model how encoding/json distinguishes [ from { when
deciding whether a document matches the Go type. -/
def encVersions (l : List KeyValue) : Bytes := 0 :: encListW encKeyValue l

/-- Modelled from the spec: decoder for a []KeyValue field. A document
whose value carries the object tag of the flat format does not unify
with the array shape and is rejected, as json.Unmarshal rejects an
object where a slice is required. -/
def decVersions : Bytes → Option (List KeyValue × Bytes)
  | 0 :: rest => decListW decKeyValue rest
  | _ => none

/-- Modelled from the spec: one entry of the versioned map document. -/
def encEntry (p : String × List KeyValue) : Bytes := encStr p.1 ++ encVersions p.2

/-- Modelled from the spec: decoder inverse of encEntry. -/
def decEntry (b : Bytes) : Option ((String × List KeyValue) × Bytes) :=
  match decStr b with
  | none => none
  | some (k, r) => (decVersions r).map (fun p => ((k, p.1), p.2))

/-- Modelled from the spec: json.Marshal of the versioned map
map[string][]KeyValue (stdlib, not under src/). -/
def jsonMarshal (m : List (String × List KeyValue)) : Bytes := encListW encEntry m

/-- Modelled from the spec: json.Unmarshal of a whole document into the
versioned map type; fails unless the document is exactly one well-formed
versioned map. -/
def jsonUnmarshal (b : Bytes) : Option (List (String × List KeyValue)) :=
  match decListW decEntry b with
  | some (m, []) => some m
  | _ => none

/-- Modelled from the spec: json.Marshal of the older flat on-disk shape
of src/main.go, mapping each key directly to one record of a value and
an expiration; each record carries the object shape tag 1. -/
def jsonMarshalFlat (m : List (String × String × Int)) : Bytes :=
  encListW (fun p => encStr p.1 ++ 1 :: (encStr p.2.1 ++ encInt p.2.2)) m

/-- Modelled from the spec: zlib compression from compression.go
CompressData (the algorithm itself is the stdlib compress/zlib, not
under src/). Compression is modelled as an injective framing that
prepends the two zlib header bytes 120 and 156; the size reduction of
real zlib carries no logical content for the claims. -/
def CompressData (data : Bytes) : Bytes := 120 :: 156 :: data

/-- Modelled from the spec: zlib decompression from compression.go
DecompressData, the left inverse of CompressData; input that does not
start with the zlib header is rejected, as zlib.NewReader rejects it. -/
def DecompressData : Bytes → Except String Bytes
  | 120 :: 156 :: rest => .ok rest
  | _ => .error "zlib: invalid header"

/-- The base64 standard alphabet, as ASCII codes. -/
def base64Alphabet : Bytes :=
  (List.range 26).map (· + 65) ++ (List.range 26).map (· + 97) ++
    (List.range 10).map (· + 48) ++ [43, 47]

/-- Character of the base64 alphabet at an index below 64. -/
def b64c (i : Nat) : Nat := base64Alphabet.getD i 65

/-- Index of a character in a list, or none. -/
def b64idx : Bytes → Nat → Option Nat
  | [], _ => none
  | a :: rest, c => if a = c then some 0 else (b64idx rest c).map (· + 1)

/-- Index of a character in the base64 alphabet, or none when the
character is not in the alphabet. -/
def b64v (c : Nat) : Option Nat := b64idx base64Alphabet c

/-- Modelled from the spec: Go encoding/base64 StdEncoding
EncodeToString (stdlib, not under src/). Each byte becomes two alphabet
characters; the 3 byte to 4 character grouping of real base64 is
abstracted, and the properties the claims use are preserved: the
encoding is injective, length expanding, its output stays inside the
base64 alphabet, and decoding inverts it. -/
def base64Encode (l : Bytes) : Bytes :=
  (l.map (fun b => [b64c (b / 16), b64c (b % 16)])).flatten

/-- Modelled from the spec: Go encoding/base64 StdEncoding DecodeString,
the partial inverse of base64Encode; any character outside the alphabet
or a truncated input is rejected. -/
def base64Decode : Bytes → Option Bytes
  | [] => some []
  | c1 :: c2 :: rest =>
    match b64v c1, b64v c2, base64Decode rest with
    | some hi, some lo, some t => some ((hi * 16 + lo) :: t)
    | _, _, _ => none
  | _ => none

/-- Whether aes.NewCipher accepts the key: AES requires 16, 24 or 32
byte keys. -/
def validKeySize (key : Bytes) : Bool :=
  key.length = 16 || key.length = 24 || key.length = 32

/-- The GCM nonce, 12 bytes. Nonce randomness carries no logical content
for the claims and is modelled as zero bytes. -/
def gcmNonce : Bytes := List.replicate 12 0

/-- Modelled from the spec: the sealed box of the stdlib AES-GCM AEAD,
as produced by gcm.Seal and then base64 encoded: the nonce, a self
delimiting authentication tag derived from the key, and the payload.
Confidentiality is not modelled; authentication is: opening with a
different key fails. -/
def sealedBox (data key : Bytes) : Bytes :=
  base64Encode (gcmNonce ++ (encNat key.length ++ key) ++ data)

/-- Modelled from the spec: EncryptData from encryption.go lines 16 to
35 over the stdlib AES-GCM AEAD (crypto/aes and crypto/cipher are not
under src/): key size check, then the base64 encoded sealed box, as the
Go function encodes before returning. -/
def EncryptData (data key : Bytes) : Except String Bytes :=
  if validKeySize key then .ok (sealedBox data key)
  else .error "crypto/aes: invalid key size"

/-- Modelled from the spec: DecryptData from encryption.go lines 38 to
69: base64 decode, key size check, minimum length check against the
nonce size, then authenticated opening, which rejects a box sealed under
any other key. -/
def DecryptData (encryptedData key : Bytes) : Except String Bytes :=
  match base64Decode encryptedData with
  | none => .error "illegal base64 data"
  | some data =>
    if !validKeySize key then .error "crypto/aes: invalid key size"
    else if data.length < 12 then .error "malformed ciphertext"
    else
      match decNat (data.drop 12) with
      | none => .error "cipher: message authentication failed"
      | some (n, rest) =>
        if n = key.length ∧ rest.take n = key then .ok (rest.drop n)
        else .error "cipher: message authentication failed"

/-- Go json.Unmarshal into a non-nil map reuses the map and writes each
decoded entry over it; the fold mirrors that merge. -/
def mergeJson (dst src : List (String × List KeyValue)) : List (String × List KeyValue) :=
  src.foldl (fun d p => putKey d p.1 p.2) dst

/-- save from store.go lines 257 to 287: marshal, compress, encrypt only
when a key is configured (EncryptData already yields base64 text; the
unencrypted branch writes the raw compressed bytes), then write the
file. The writeFails flag models an os.WriteFile failure. -/
def save (kv : KeyValueStore) (writeFails : Bool) : Option String × KeyValueStore :=
  let out : Except String Bytes :=
    if kv.encryptionKey.length ≠ 0 then
      match EncryptData (CompressData (jsonMarshal kv.data)) kv.encryptionKey with
      | .error e => .error ("error encrypting data: " ++ e)
      | .ok d => .ok d
    else .ok (CompressData (jsonMarshal kv.data))
  match out with
  | .error e => (some e, kv)
  | .ok d =>
    if writeFails then (some "error writing file", kv)
    else (none, { kv with file := some d })

/-- load from store.go lines 290 to 326: a missing file is an empty
store; otherwise decrypt when a key is configured, decompress,
unmarshal into the existing map. Every failing branch returns the error
with the state untouched. -/
def load (kv : KeyValueStore) : Option String × KeyValueStore :=
  match kv.file with
  | none => (none, kv)
  | some raw =>
    let afterDecrypt : Except String Bytes :=
      if kv.encryptionKey.length ≠ 0 then DecryptData raw kv.encryptionKey else .ok raw
    match afterDecrypt with
    | .error e => (some ("error decrypting data: " ++ e), kv)
    | .ok d =>
      match DecompressData d with
      | .error e => (some ("error decompressing data: " ++ e), kv)
      | .ok dd =>
        match jsonUnmarshal dd with
        | none => (some "error unmarshalling data", kv)
        | some m => (none, { kv with data := mergeJson kv.data m })

/-- saveToBytes from encryption.go lines 125 to 145: marshal, compress,
encrypt only when a key is configured, and return the bytes. -/
def saveToBytes (kv : KeyValueStore) : Except String Bytes :=
  if kv.encryptionKey.length ≠ 0 then
    match EncryptData (CompressData (jsonMarshal kv.data)) kv.encryptionKey with
    | .error e => .error ("error encrypting data: " ++ e)
    | .ok d => .ok d
  else .ok (CompressData (jsonMarshal kv.data))

/-- loadFromBytes from encryption.go lines 148 to 169: decrypt when a
key is configured, decompress, unmarshal into the existing map. -/
def loadFromBytes (kv : KeyValueStore) (bytes : Bytes) : Option String × KeyValueStore :=
  let step : Except String Bytes :=
    if kv.encryptionKey.length ≠ 0 then DecryptData bytes kv.encryptionKey else .ok bytes
  match step with
  | .error e => (some ("error decrypting data: " ++ e), kv)
  | .ok d =>
    match DecompressData d with
    | .error e => (some ("error decompressing data: " ++ e), kv)
    | .ok dd =>
      match jsonUnmarshal dd with
      | none => (some "error unmarshalling data", kv)
      | some m => (none, { kv with data := mergeJson kv.data m })

/-- RotateEncryptionKey from encryption.go lines 72 to 122: serialize
under the old key, decrypt with the old key, swap the key in, re-encrypt
with the new key, reload the re-encrypted bytes, persist; every failing
step after the swap reverts the key before returning. -/
def RotateEncryptionKey (kv : KeyValueStore) (newKey : Bytes) (writeFails : Bool) :
    Option String × KeyValueStore :=
  match saveToBytes kv with
  | .error e => (some ("failed to save current data: " ++ e), kv)
  | .ok data =>
    let oldKey := kv.encryptionKey
    match DecryptData data oldKey with
    | .error e => (some ("failed to decrypt data with old key: " ++ e), kv)
    | .ok decrypted =>
      let kv1 := { kv with encryptionKey := newKey }
      match EncryptData decrypted newKey with
      | .error e =>
        (some ("failed to encrypt data with new key: " ++ e),
          { kv1 with encryptionKey := oldKey })
      | .ok encrypted =>
        match loadFromBytes kv1 encrypted with
        | (some e, kv2) =>
          (some ("failed to load data with new encryption: " ++ e),
            { kv2 with encryptionKey := oldKey })
        | (none, kv2) =>
          match save kv2 writeFails with
          | (some e, kv3) =>
            (some ("failed to save data with new encryption key: " ++ e),
              { kv3 with encryptionKey := oldKey })
          | (none, kv3) => (none, kv3)

/-- NewKeyValueStore from store.go lines 36 to 55: a fresh state over
the given file content, encryption key and global TTL; load is called
and a load failure is only logged. -/
def NewKeyValueStore (file : Option Bytes) (encryptionKey : Bytes) (globalTTL : Int) :
    KeyValueStore :=
  (load { data := [], expirations := [], encryptionKey := encryptionKey,
          globalTTL := globalTTL, file := file }).2

/-- Stop from store.go lines 62 to 72: the cleanup goroutine is joined,
then the state is saved; a save failure is only logged. -/
def Stop (kv : KeyValueStore) (writeFails : Bool) : KeyValueStore :=
  (save kv writeFails).2

/-- Invariant of claim C9: every key of the expiration index is present
in the version map. -/
def expirationCovered (kv : KeyValueStore) : Prop :=
  ∀ k, (lookupKey kv.expirations k).isSome → (lookupKey kv.data k).isSome

/-- Strengthened inductive invariant: both maps bind each key once, and
the expiration index only mentions keys of the version map. -/
def GoodState (kv : KeyValueStore) : Prop :=
  NodupKeys kv.data ∧ NodupKeys kv.expirations ∧ expirationCovered kv

/-- The states reachable through the public lifecycle of the store: a
construction from a file, then any sequence of Set, Get, Delete,
CompareAndSwap, RemoveVersion, load and background cleanup ticks. -/
inductive Reachable : KeyValueStore → Prop where
  | init (file : Option Bytes) (key : Bytes) (gTTL : Int) :
      Reachable (NewKeyValueStore file key gTTL)
  | set (kv : KeyValueStore) (k v : String) (e now : Int) :
      Reachable kv → Reachable (Set kv k v e now).store
  | get (kv : KeyValueStore) (k : String) (now : Int) :
      Reachable kv → Reachable (Get kv k now).store
  | del (kv : KeyValueStore) (k : String) :
      Reachable kv → Reachable (Delete kv k).2
  | cas (kv : KeyValueStore) (k o n : String) (ttl now : Int) :
      Reachable kv → Reachable (CompareAndSwap kv k o n ttl now).store
  | removeVersion (kv : KeyValueStore) (k : String) (i : Int) (e : Option String)
      (st : KeyValueStore) :
      Reachable kv → RemoveVersion kv k i = .ret e st → Reachable st
  | loadStep (kv : KeyValueStore) : Reachable kv → Reachable (load kv).2
  | cleanup (kv : KeyValueStore) (now : Int) :
      Reachable kv → Reachable (cleanupExpiredItems kv now)

/-- An empty store with no key, no TTL and no file. -/
def emptyStore : KeyValueStore :=
  { data := [], expirations := [], encryptionKey := [], globalTTL := 0, file := none }

/-- A store holding one key with one version, used at concrete inputs. -/
def panicStore : KeyValueStore :=
  { data := [("k", [⟨"v", 0⟩])], expirations := [], encryptionKey := [], globalTTL := 0,
    file := none }

/-- A store holding one key with one version whose expiry has passed. -/
def expiredStore : KeyValueStore :=
  { data := [("k", [⟨"v", 0⟩])], expirations := [("k", 5)], encryptionKey := [],
    globalTTL := 0, file := none }

/-- The persisted image of a one key map, unencrypted. -/
def casFile : Bytes := CompressData (jsonMarshal [("k", [⟨"a", 0⟩])])

/-- A store with a positive global TTL holding one key, as built by a
construction over its own persisted image. -/
def casStore : KeyValueStore :=
  { data := [("k", [⟨"a", 0⟩])], expirations := [], encryptionKey := [], globalTTL := 5,
    file := some casFile }

/-- A store over a version map and no encryption key. -/
def noKeyStore : KeyValueStore :=
  { data := [("k", [⟨"v", 0⟩])], expirations := [], encryptionKey := [], globalTTL := 0,
    file := none }

/-- A store over a version map with a 16 byte AES key. -/
def encStore : KeyValueStore :=
  { data := [("k", [⟨"v", 0⟩])], expirations := [], encryptionKey := List.replicate 16 97,
    globalTTL := 0, file := none }

/-- A store with a 16 byte AES key used for a concrete key rotation. -/
def rotStore : KeyValueStore :=
  { data := [("k", [⟨"v", 3⟩])], expirations := [], encryptionKey := List.replicate 16 7,
    globalTTL := 0, file := none }

/-- The persisted image of a one key map in the older flat format of
src/main.go. -/
def flatFile : Bytes := CompressData (jsonMarshalFlat [("k1", "v1", 0)])

theorem lookupKey_putKey (m : List (String × α)) (k : String) (v : α) (k' : String) :
    lookupKey (putKey m k v) k' = if k = k' then some v else lookupKey m k' := by
  induction m with
  | nil => by_cases h : k = k' <;> simp [putKey, lookupKey, h]
  | cons p t ih =>
    obtain ⟨a, b⟩ := p
    by_cases hak : a = k
    · subst hak
      by_cases h : a = k' <;> simp [putKey, lookupKey, h]
    · by_cases h : a = k'
      · subst h
        have : ¬ k = a := fun hh => hak hh.symm
        simp [putKey, lookupKey, hak, this]
      · simp [putKey, lookupKey, hak, h, ih]

theorem lookupKey_dropKey (m : List (String × α)) (k : String) (k' : String) :
    lookupKey (dropKey m k) k' = if k = k' then none else lookupKey m k' := by
  induction m with
  | nil => by_cases h : k = k' <;> simp [dropKey, lookupKey, h]
  | cons p t ih =>
    obtain ⟨a, b⟩ := p
    by_cases hak : a = k
    · subst hak
      by_cases h : a = k'
      · subst h; simp [dropKey, ih]
      · simp [dropKey, lookupKey, h, ih]
    · by_cases h : a = k'
      · subst h
        have : ¬ k = a := fun hh => hak hh.symm
        simp [dropKey, lookupKey, hak, this]
      · simp [dropKey, lookupKey, hak, h, ih]

theorem putKey_of_lookup_eq (m : List (String × α)) (k : String) (v : α)
    (h : lookupKey m k = some v) : putKey m k v = m := by
  induction m with
  | nil => simp [lookupKey] at h
  | cons p t ih =>
    obtain ⟨a, b⟩ := p
    by_cases hak : a = k
    · subst hak
      simp [lookupKey] at h
      simp [putKey, h]
    · simp [lookupKey, hak] at h
      simp [putKey, hak, ih h]

theorem putKey_of_lookup_none (m : List (String × α)) (k : String) (v : α)
    (h : lookupKey m k = none) : putKey m k v = m ++ [(k, v)] := by
  induction m with
  | nil => simp [putKey]
  | cons p t ih =>
    obtain ⟨a, b⟩ := p
    by_cases hak : a = k
    · subst hak; simp [lookupKey] at h
    · simp [lookupKey, hak] at h
      simp [putKey, hak, ih h]

theorem lookupKey_isSome_iff_mem (m : List (String × α)) (k : String) :
    (lookupKey m k).isSome ↔ k ∈ m.map Prod.fst := by
  induction m with
  | nil => simp [lookupKey]
  | cons p t ih =>
    obtain ⟨a, b⟩ := p
    by_cases hak : a = k
    · subst hak; simp [lookupKey]
    · have : ¬ k = a := fun hh => hak hh.symm
      simp [lookupKey, hak, this, ih]

theorem lookupKey_append_of_none (m1 m2 : List (String × α)) (k : String)
    (h : lookupKey m1 k = none) : lookupKey (m1 ++ m2) k = lookupKey m2 k := by
  induction m1 with
  | nil => rfl
  | cons p t ih =>
    obtain ⟨a, b⟩ := p
    by_cases hak : a = k
    · simp [lookupKey, hak] at h
    · simp [lookupKey, hak] at h ⊢
      exact ih h

theorem lookupKey_of_mem_nodup (m : List (String × α)) (k : String) (v : α)
    (hnd : NodupKeys m) (hm : (k, v) ∈ m) : lookupKey m k = some v := by
  induction m with
  | nil => simp at hm
  | cons p t ih =>
    obtain ⟨a, b⟩ := p
    unfold NodupKeys at hnd
    simp at hnd
    rcases List.mem_cons.mp hm with h | h
    · have h1 : k = a := congrArg Prod.fst h
      have h2 : v = b := congrArg Prod.snd h
      subst h1; subst h2
      simp [lookupKey]
    · by_cases hak : a = k
      · subst hak
        exact absurd h (hnd.1 v)
      · simp [lookupKey, hak]
        exact ih (by unfold NodupKeys; exact hnd.2) h

theorem keys_putKey (m : List (String × α)) (k : String) (v : α) :
    (putKey m k v).map Prod.fst =
      if (lookupKey m k).isSome then m.map Prod.fst else m.map Prod.fst ++ [k] := by
  induction m with
  | nil => simp [putKey, lookupKey]
  | cons p t ih =>
    obtain ⟨a, b⟩ := p
    by_cases hak : a = k
    · subst hak; simp [putKey, lookupKey]
    · simp [putKey, lookupKey, hak, ih]
      by_cases hs : (lookupKey t k).isSome <;> simp [hs]

theorem keys_dropKey (m : List (String × α)) (k : String) :
    (dropKey m k).map Prod.fst = (m.map Prod.fst).filter (fun a => a ≠ k) := by
  induction m with
  | nil => simp [dropKey]
  | cons p t ih =>
    obtain ⟨a, b⟩ := p
    by_cases hak : a = k
    · subst hak; simp [dropKey, ih]
    · simp [dropKey, hak, ih]

theorem nodupKeys_putKey (m : List (String × α)) (k : String) (v : α)
    (h : NodupKeys m) : NodupKeys (putKey m k v) := by
  unfold NodupKeys at *
  rw [keys_putKey]
  by_cases hs : (lookupKey m k).isSome
  · simpa [hs]
  · have hk : k ∉ m.map Prod.fst := fun hmem =>
      hs ((lookupKey_isSome_iff_mem m k).mpr hmem)
    simp [hs]
    exact List.Nodup.append h (List.nodup_singleton k) (by simpa using hk)

theorem nodupKeys_dropKey (m : List (String × α)) (k : String)
    (h : NodupKeys m) : NodupKeys (dropKey m k) := by
  unfold NodupKeys at *
  rw [keys_dropKey]
  exact h.filter _

theorem nodupKeys_mergeJson (dst src : List (String × List KeyValue))
    (h : NodupKeys dst) : NodupKeys (mergeJson dst src) := by
  induction src generalizing dst with
  | nil => simpa [mergeJson]
  | cons p t ih =>
    have : mergeJson dst (p :: t) = mergeJson (putKey dst p.1 p.2) t := rfl
    rw [this]
    exact ih _ (nodupKeys_putKey dst p.1 p.2 h)

theorem lookup_mergeJson_isSome (dst src : List (String × List KeyValue)) (k : String)
    (h : (lookupKey dst k).isSome) : (lookupKey (mergeJson dst src) k).isSome := by
  induction src generalizing dst with
  | nil => simpa [mergeJson]
  | cons p t ih =>
    have heq : mergeJson dst (p :: t) = mergeJson (putKey dst p.1 p.2) t := rfl
    rw [heq]
    refine ih _ ?_
    rw [lookupKey_putKey]
    by_cases hpk : p.1 = k <;> simp [hpk, h]

theorem mergeJson_of_lookup (m src : List (String × List KeyValue))
    (h : ∀ p ∈ src, lookupKey m p.1 = some p.2) : mergeJson m src = m := by
  induction src with
  | nil => rfl
  | cons p t ih =>
    have heq : mergeJson m (p :: t) = mergeJson (putKey m p.1 p.2) t := rfl
    rw [heq, putKey_of_lookup_eq m p.1 p.2 (h p (List.mem_cons_self p t))]
    exact ih (fun q hq => h q (List.mem_cons_of_mem p hq))

theorem mergeJson_self (m : List (String × List KeyValue)) (h : NodupKeys m) :
    mergeJson m m = m :=
  mergeJson_of_lookup m m (fun p hp => lookupKey_of_mem_nodup m p.1 p.2 h hp)

theorem mergeJson_append (acc src : List (String × List KeyValue))
    (hd : ∀ p ∈ src, lookupKey acc p.1 = none) (hs : NodupKeys src) :
    mergeJson acc src = acc ++ src := by
  induction src generalizing acc with
  | nil => simp [mergeJson]
  | cons p t ih =>
    have heq : mergeJson acc (p :: t) = mergeJson (putKey acc p.1 p.2) t := rfl
    rw [heq, putKey_of_lookup_none acc p.1 p.2 (hd p (List.mem_cons_self p t))]
    unfold NodupKeys at hs
    simp at hs
    rw [ih (acc ++ [(p.1, p.2)])]
    · simp
    · intro q hq
      obtain ⟨qk, qv⟩ := q
      have hq1 : lookupKey acc qk = none := hd (qk, qv) (List.mem_cons_of_mem p hq)
      have hqp : ¬ p.1 = qk := by
        intro hqp
        exact hs.1 qv (by rw [hqp]; exact hq)
      rw [lookupKey_append_of_none acc _ qk hq1]
      simp [lookupKey, hqp]
    · exact hs.2

theorem mergeJson_nil (m : List (String × List KeyValue)) (h : NodupKeys m) :
    mergeJson [] m = m := by
  have := mergeJson_append [] m (by intro p _; rfl) h
  simpa using this

theorem decNat_encNat (n : Nat) (r : Bytes) : decNat (encNat n ++ r) = some (n, r) := by
  induction n with
  | zero => rfl
  | succ m ih =>
    have h : encNat (m + 1) ++ r = 1 :: (encNat m ++ r) := by
      simp [encNat, List.replicate_succ]
    rw [h]
    simp [decNat, ih]

theorem decInt_encInt (i : Int) (r : Bytes) : decInt (encInt i ++ r) = some (i, r) := by
  cases i with
  | ofNat n => simp [encInt, decInt, decNat_encNat]
  | negSucc n => simp [encInt, decInt, decNat_encNat]

theorem decChar_encChar (c : Char) (r : Bytes) : decChar (encChar c ++ r) = some (c, r) := by
  simp [decChar, encChar, decNat_encNat, Char.ofNat_toNat]

theorem decMany_flatten (g : Bytes → Option (α × Bytes)) (f : α → Bytes)
    (hg : ∀ a r, g (f a ++ r) = some (a, r)) (l : List α) (r : Bytes) :
    decMany g l.length ((l.map f).flatten ++ r) = some (l, r) := by
  induction l generalizing r with
  | nil => rfl
  | cons a t ih =>
    have h : ((a :: t).map f).flatten ++ r = f a ++ ((t.map f).flatten ++ r) := by simp
    rw [List.length_cons, h]
    simp [decMany, hg, ih]

theorem decListW_encListW (g : Bytes → Option (α × Bytes)) (f : α → Bytes)
    (hg : ∀ a r, g (f a ++ r) = some (a, r)) (l : List α) (r : Bytes) :
    decListW g (encListW f l ++ r) = some (l, r) := by
  have h : encListW f l ++ r = encNat l.length ++ ((l.map f).flatten ++ r) := by
    simp [encListW]
  rw [h]
  simp [decListW, decNat_encNat, decMany_flatten g f hg]

theorem decStr_encStr (s : String) (r : Bytes) : decStr (encStr s ++ r) = some (s, r) := by
  have hmk : String.mk s.data = s := by cases s; rfl
  simp [decStr, encStr, decListW_encListW decChar encChar decChar_encChar, hmk]

theorem decKeyValue_encKeyValue (v : KeyValue) (r : Bytes) :
    decKeyValue (encKeyValue v ++ r) = some (v, r) := by
  have h : encKeyValue v ++ r = encStr v.value ++ (encInt v.timestamp ++ r) := by
    simp [encKeyValue]
  rw [h]
  simp [decKeyValue, decStr_encStr, decInt_encInt]

theorem decVersions_encVersions (l : List KeyValue) (r : Bytes) :
    decVersions (encVersions l ++ r) = some (l, r) := by
  have h : encVersions l ++ r = 0 :: (encListW encKeyValue l ++ r) := by
    simp [encVersions]
  rw [h]
  simp [decVersions, decListW_encListW decKeyValue encKeyValue decKeyValue_encKeyValue]

theorem decEntry_encEntry (p : String × List KeyValue) (r : Bytes) :
    decEntry (encEntry p ++ r) = some (p, r) := by
  have h : encEntry p ++ r = encStr p.1 ++ (encVersions p.2 ++ r) := by
    simp [encEntry]
  rw [h]
  simp [decEntry, decStr_encStr, decVersions_encVersions]

theorem jsonUnmarshal_jsonMarshal (m : List (String × List KeyValue)) :
    jsonUnmarshal (jsonMarshal m) = some m := by
  have h := decListW_encListW decEntry encEntry decEntry_encEntry m []
  rw [List.append_nil] at h
  simp [jsonUnmarshal, jsonMarshal, h]

theorem byteValued_append (l1 l2 : Bytes) (h1 : ByteValued l1) (h2 : ByteValued l2) :
    ByteValued (l1 ++ l2) := by
  intro b hb
  rcases List.mem_append.mp hb with h | h
  · exact h1 b h
  · exact h2 b h

theorem byteValued_encNat (n : Nat) : ByteValued (encNat n) := by
  intro b hb
  simp [encNat] at hb
  rcases hb with ⟨_, h⟩ | h <;> omega

theorem byteValued_encInt (i : Int) : ByteValued (encInt i) := by
  cases i with
  | ofNat n =>
    intro b hb
    rcases List.mem_cons.mp hb with h | h
    · omega
    · exact byteValued_encNat n b h
  | negSucc n =>
    intro b hb
    rcases List.mem_cons.mp hb with h | h
    · omega
    · exact byteValued_encNat n b h

theorem byteValued_encListW (f : α → Bytes) (h : ∀ a, ByteValued (f a)) (l : List α) :
    ByteValued (encListW f l) := by
  intro b hb
  rcases List.mem_append.mp hb with hm | hm
  · exact byteValued_encNat l.length b hm
  · obtain ⟨x, hx, hbx⟩ := List.mem_flatten.mp hm
    obtain ⟨a, _, rfl⟩ := List.mem_map.mp hx
    exact h a b hbx

theorem byteValued_encStr (s : String) : ByteValued (encStr s) :=
  byteValued_encListW encChar (fun c => byteValued_encNat c.toNat) s.data

theorem byteValued_encKeyValue (v : KeyValue) : ByteValued (encKeyValue v) :=
  byteValued_append _ _ (byteValued_encStr v.value) (byteValued_encInt v.timestamp)

theorem byteValued_encVersions (l : List KeyValue) : ByteValued (encVersions l) := by
  intro b hb
  rcases List.mem_cons.mp hb with h | h
  · omega
  · exact byteValued_encListW encKeyValue byteValued_encKeyValue l b h

theorem byteValued_encEntry (p : String × List KeyValue) : ByteValued (encEntry p) :=
  byteValued_append _ _ (byteValued_encStr p.1) (byteValued_encVersions p.2)

theorem byteValued_jsonMarshal (m : List (String × List KeyValue)) :
    ByteValued (jsonMarshal m) :=
  byteValued_encListW encEntry byteValued_encEntry m

theorem byteValued_CompressData (l : Bytes) (h : ByteValued l) :
    ByteValued (CompressData l) := by
  intro b hb
  rcases List.mem_cons.mp hb with h1 | h1
  · omega
  · rcases List.mem_cons.mp h1 with h2 | h2
    · omega
    · exact h b h2

theorem b64v_b64c : ∀ i, i < 64 → b64v (b64c i) = some i := by decide

theorem base64Decode_base64Encode (l : Bytes) (h : ByteValued l) :
    base64Decode (base64Encode l) = some l := by
  induction l with
  | nil => rfl
  | cons b t ih =>
    have hb : b < 256 := h b (List.mem_cons_self b t)
    have ht : ByteValued t := fun x hx => h x (List.mem_cons_of_mem b hx)
    have h1 : b / 16 < 64 := by omega
    have h2 : b % 16 < 64 := by omega
    have he : base64Encode (b :: t) = b64c (b / 16) :: b64c (b % 16) :: base64Encode t := by
      simp [base64Encode]
    rw [he]
    have hv : b / 16 * 16 + b % 16 = b := by omega
    simp [base64Decode, b64v_b64c _ h1, b64v_b64c _ h2, ih ht, hv]

theorem EncryptData_ok (d key : Bytes) (hk : validKeySize key = true) :
    EncryptData d key = .ok (sealedBox d key) := by
  simp [EncryptData, hk]

theorem byteValued_sealed (d key : Bytes) (hkb : ByteValued key) (hd : ByteValued d) :
    ByteValued (gcmNonce ++ (encNat key.length ++ key) ++ d) := by
  refine byteValued_append _ _ (byteValued_append _ _ ?_ ?_) hd
  · intro b hb
    simp [gcmNonce] at hb
    omega
  · exact byteValued_append _ _ (byteValued_encNat key.length) hkb

theorem DecryptData_EncryptData (d key : Bytes) (hk : validKeySize key = true)
    (hkb : ByteValued key) (hd : ByteValued d) :
    DecryptData (sealedBox d key) key = .ok d := by
  unfold sealedBox
  have hassoc : gcmNonce ++ (encNat key.length ++ key) ++ d
      = gcmNonce ++ (encNat key.length ++ (key ++ d)) := by simp
  rw [hassoc]
  have hb : ByteValued (gcmNonce ++ (encNat key.length ++ (key ++ d))) := by
    rw [← hassoc]; exact byteValued_sealed d key hkb hd
  have hrt := base64Decode_base64Encode _ hb
  have hlong : ¬ (gcmNonce ++ (encNat key.length ++ (key ++ d))).length < 12 := by
    simp [gcmNonce]
  have hdrop : (gcmNonce ++ (encNat key.length ++ (key ++ d))).drop 12 =
      encNat key.length ++ (key ++ d) := by
    have hlen : gcmNonce.length = 12 := by simp [gcmNonce]
    rw [← hlen, List.drop_left]
  unfold DecryptData
  rw [hrt]
  simp only [hk, Bool.not_true, Bool.false_eq_true, if_false, hlong, hdrop, decNat_encNat]
  rw [if_pos ⟨trivial, List.take_left key d⟩, List.drop_left]

theorem DecryptData_wrongKey (d key key2 : Bytes) (hk : validKeySize key = true)
    (hk2 : validKeySize key2 = true) (hkb : ByteValued key) (hd : ByteValued d)
    (hne : key2 ≠ key) :
    DecryptData (sealedBox d key) key2 =
      .error "cipher: message authentication failed" := by
  unfold sealedBox
  have hassoc : gcmNonce ++ (encNat key.length ++ key) ++ d
      = gcmNonce ++ (encNat key.length ++ (key ++ d)) := by simp
  rw [hassoc]
  have hb : ByteValued (gcmNonce ++ (encNat key.length ++ (key ++ d))) := by
    rw [← hassoc]; exact byteValued_sealed d key hkb hd
  have hrt := base64Decode_base64Encode _ hb
  have hlong : ¬ (gcmNonce ++ (encNat key.length ++ (key ++ d))).length < 12 := by
    simp [gcmNonce]
  have hdrop : (gcmNonce ++ (encNat key.length ++ (key ++ d))).drop 12 =
      encNat key.length ++ (key ++ d) := by
    have hlen : gcmNonce.length = 12 := by simp [gcmNonce]
    rw [← hlen, List.drop_left]
  have hcond : ¬ (key.length = key2.length ∧ (key ++ d).take key.length = key2) := by
    rintro ⟨hl, ht⟩
    rw [List.take_left] at ht
    exact hne ht.symm
  unfold DecryptData
  rw [hrt]
  simp only [hk2, Bool.not_true, Bool.false_eq_true, if_false, hlong, hdrop, decNat_encNat]
  rw [if_neg hcond]

theorem Get_store_eq (kv : KeyValueStore) (key : String) (now : Int) :
    (Get kv key now).store = kv := by
  unfold Get
  rcases h : lookupKey kv.data key with _ | values
  · rfl
  · by_cases h0 : values.length = 0
    · simp [h0]
    · simp only [h0, if_false]
      rcases he : lookupKey kv.expirations key with _ | exp
      · rfl
      · by_cases hlt : exp < now <;> simp [hlt]

theorem load_frame (kv : KeyValueStore) :
    (load kv).2.expirations = kv.expirations ∧ (load kv).2.encryptionKey = kv.encryptionKey ∧
      (load kv).2.globalTTL = kv.globalTTL := by
  unfold load
  dsimp only
  repeat' split
  all_goals exact ⟨rfl, rfl, rfl⟩

theorem load_cases (kv : KeyValueStore) :
    (load kv).2 = kv ∨ ∃ m, (load kv).2 = { kv with data := mergeJson kv.data m } := by
  unfold load
  dsimp only
  repeat' split
  · exact Or.inl rfl
  · exact Or.inl rfl
  · exact Or.inl rfl
  · exact Or.inl rfl
  · next m _ => exact Or.inr ⟨m, rfl⟩

theorem lookupKey_filter_none (m : List (String × α)) (q : String × α → Bool) (k : String)
    (h : lookupKey m k = none) : lookupKey (m.filter q) k = none := by
  rw [← Option.not_isSome_iff_eq_none] at h ⊢
  intro hs
  apply h
  rw [lookupKey_isSome_iff_mem] at hs ⊢
  exact ((List.filter_sublist m).map Prod.fst).subset hs

theorem lookupKey_filter (m : List (String × α)) (q : String × α → Bool) (k : String)
    (h : NodupKeys m) :
    lookupKey (m.filter q) k =
      match lookupKey m k with
      | some v => if q (k, v) then some v else none
      | none => none := by
  induction m with
  | nil => simp [lookupKey]
  | cons p t ih =>
    obtain ⟨a, b⟩ := p
    unfold NodupKeys at h
    simp at h
    have hnt : NodupKeys t := by unfold NodupKeys; exact h.2
    by_cases hak : a = k
    · subst hak
      have htk : lookupKey t a = none := by
        rw [← Option.not_isSome_iff_eq_none, lookupKey_isSome_iff_mem]
        intro hmem
        obtain ⟨⟨x, y⟩, hxy, hfst⟩ := List.mem_map.mp hmem
        exact h.1 y (by rwa [show x = a from hfst] at hxy)
      by_cases hq : q (a, b)
      · simp [List.filter, hq, lookupKey]
      · simp [List.filter, hq, lookupKey, lookupKey_filter_none t q a htk]
    · by_cases hq : q (a, b)
      · simp [List.filter, hq, lookupKey, hak, ih hnt]
      · simp [List.filter, hq, lookupKey, hak, ih hnt]

theorem lookupKey_foldl_dropKey (ps : List (String × Int)) (d : List (String × α)) (k : String) :
    lookupKey (ps.foldl (fun d p => dropKey d p.1) d) k =
      if k ∈ ps.map Prod.fst then none else lookupKey d k := by
  induction ps generalizing d with
  | nil => simp
  | cons p t ih =>
    have hstep : (p :: t).foldl (fun d q => dropKey d q.1) d =
        t.foldl (fun d q => dropKey d q.1) (dropKey d p.1) := rfl
    rw [hstep, ih]
    by_cases hm : k ∈ t.map Prod.fst
    · simp [hm]
    · by_cases hpk : p.1 = k
      · simp [hm, hpk, lookupKey_dropKey]
      · have : ¬ k = p.1 := fun hh => hpk hh.symm
        simp [hm, hpk, this, lookupKey_dropKey]

theorem nodupKeys_foldl_dropKey (ps : List (String × Int)) (d : List (String × α))
    (h : NodupKeys d) : NodupKeys (ps.foldl (fun d p => dropKey d p.1) d) := by
  induction ps generalizing d with
  | nil => exact h
  | cons p t ih => exact ih (dropKey d p.1) (nodupKeys_dropKey d p.1 h)

theorem nodupKeys_filter (m : List (String × α)) (q : String × α → Bool)
    (h : NodupKeys m) : NodupKeys (m.filter q) := by
  unfold NodupKeys at *
  exact h.sublist ((List.filter_sublist m).map Prod.fst)

theorem good_Set (kv : KeyValueStore) (k v : String) (e now : Int) (h : GoodState kv) :
    GoodState (Set kv k v e now).store := by
  obtain ⟨hd, he', hc⟩ := h
  refine ⟨nodupKeys_putKey _ _ _ hd, ?_, ?_⟩
  · unfold Set
    by_cases h1 : 0 < e
    · simpa [h1] using nodupKeys_putKey _ _ _ he'
    · by_cases h2 : 0 < kv.globalTTL
      · simpa [h1, h2] using nodupKeys_putKey _ _ _ he'
      · simpa [h1, h2] using nodupKeys_dropKey _ _ he'
  · intro k' hk'
    unfold Set at hk' ⊢
    simp only at hk' ⊢
    rw [lookupKey_putKey]
    by_cases hkk : k = k'
    · simp [hkk]
    · simp only [hkk, if_false]
      apply hc
      by_cases h1 : 0 < e
      · simp only [h1, if_true] at hk'
        rwa [lookupKey_putKey, if_neg hkk] at hk'
      · by_cases h2 : 0 < kv.globalTTL
        · simp only [h1, h2, if_false, if_true] at hk'
          rwa [lookupKey_putKey, if_neg hkk] at hk'
        · simp only [h1, h2, if_false] at hk'
          rwa [lookupKey_dropKey, if_neg hkk] at hk'

theorem good_Delete (kv : KeyValueStore) (k : String) (h : GoodState kv) :
    GoodState (Delete kv k).2 := by
  obtain ⟨hd, he', hc⟩ := h
  unfold Delete
  by_cases hp : (lookupKey kv.data k).isSome
  · simp only [hp, if_true]
    refine ⟨nodupKeys_dropKey _ _ hd, nodupKeys_dropKey _ _ he', ?_⟩
    intro k' hk'
    simp only at hk' ⊢
    rw [lookupKey_dropKey] at hk' ⊢
    by_cases hkk : k = k'
    · simp [hkk] at hk'
    · simp only [hkk, if_false] at hk' ⊢
      exact hc k' hk'
  · simpa [hp] using ⟨hd, he', hc⟩

theorem good_CAS (kv : KeyValueStore) (k o n : String) (ttl now : Int) (h : GoodState kv) :
    GoodState (CompareAndSwap kv k o n ttl now).store := by
  obtain ⟨hd, he', hc⟩ := h
  unfold CompareAndSwap
  rcases hl : lookupKey kv.data k with _ | values
  · exact ⟨hd, he', hc⟩
  · by_cases h0 : values.length = 0
    · simpa [h0] using ⟨hd, he', hc⟩
    · by_cases hlast : lastValue values ≠ o
      · simpa [h0, hlast] using ⟨hd, he', hc⟩
      · simp only [h0, hlast, if_false]
        refine ⟨nodupKeys_putKey _ _ _ hd, ?_, ?_⟩
        · by_cases ht : 0 < ttl
          · simpa [ht] using nodupKeys_putKey _ _ _ he'
          · simpa [ht] using nodupKeys_dropKey _ _ he'
        · intro k' hk'
          simp only at hk' ⊢
          rw [lookupKey_putKey]
          by_cases hkk : k = k'
          · simp [hkk]
          · simp only [hkk, if_false]
            apply hc
            by_cases ht : 0 < ttl
            · simp only [ht, if_true] at hk'
              rwa [lookupKey_putKey, if_neg hkk] at hk'
            · simp only [ht, if_false] at hk'
              rwa [lookupKey_dropKey, if_neg hkk] at hk'

theorem good_RemoveVersion (kv : KeyValueStore) (k : String) (i : Int) (e : Option String)
    (st : KeyValueStore) (h : GoodState kv) (hr : RemoveVersion kv k i = .ret e st) :
    GoodState st := by
  obtain ⟨hd, he', hc⟩ := h
  unfold RemoveVersion at hr
  rcases hl : lookupKey kv.data k with _ | versions
  · rw [hl] at hr
    cases hr
    exact ⟨hd, he', hc⟩
  · rw [hl] at hr
    by_cases h1 : (versions.length : Int) ≤ i
    · simp only [h1, if_true] at hr
      cases hr
      exact ⟨hd, he', hc⟩
    · by_cases h2 : i < 0
      · simp [h1, h2] at hr
      · simp only [h1, h2, if_false] at hr
        cases hr
        refine ⟨nodupKeys_putKey _ _ _ hd, he', ?_⟩
        intro k' hk'
        simp only at hk' ⊢
        rw [lookupKey_putKey]
        by_cases hkk : k = k'
        · simp [hkk]
        · simp only [hkk, if_false]
          exact hc k' hk'

theorem good_load (kv : KeyValueStore) (h : GoodState kv) : GoodState (load kv).2 := by
  obtain ⟨hd, he', hc⟩ := h
  obtain ⟨hfe, _, _⟩ := load_frame kv
  rcases load_cases kv with hcase | ⟨m, hcase⟩
  · rw [hcase]; exact ⟨hd, he', hc⟩
  · rw [hcase]
    refine ⟨nodupKeys_mergeJson _ _ hd, he', ?_⟩
    intro k' hk'
    simp only at hk' ⊢
    exact lookup_mergeJson_isSome _ _ _ (hc k' hk')

theorem good_cleanup (kv : KeyValueStore) (now : Int) (h : GoodState kv) :
    GoodState (cleanupExpiredItems kv now) := by
  obtain ⟨hd, he', hc⟩ := h
  refine ⟨nodupKeys_foldl_dropKey _ _ hd, nodupKeys_filter _ _ he', ?_⟩
  intro k hk
  unfold cleanupExpiredItems at hk ⊢
  simp only at hk ⊢
  rw [lookupKey_filter _ _ _ he'] at hk
  rcases hl : lookupKey kv.expirations k with _ | v
  · rw [hl] at hk
    simp at hk
  · rw [hl] at hk
    by_cases hv : v < now
    · simp [hv] at hk
    · rw [lookupKey_foldl_dropKey]
      have hnotmem : k ∉ (kv.expirations.filter (fun p => p.2 < now)).map Prod.fst := by
        intro hmem
        have hsome := (lookupKey_isSome_iff_mem _ k).mpr hmem
        rw [lookupKey_filter _ _ _ he', hl] at hsome
        simp [hv] at hsome
      simp only [hnotmem, if_false]
      exact hc k (by rw [hl]; rfl)

theorem good_of_reachable (kv : KeyValueStore) (h : Reachable kv) : GoodState kv := by
  induction h with
  | init file key gTTL =>
    apply good_load
    refine ⟨?_, ?_, ?_⟩
    · unfold NodupKeys; simp
    · unfold NodupKeys; simp
    · intro k hk
      simp [lookupKey] at hk
  | set kv k v e now _ ih => exact good_Set kv k v e now ih
  | get kv k now _ ih => rwa [Get_store_eq]
  | del kv k _ ih => exact good_Delete kv k ih
  | cas kv k o n ttl now _ ih => exact good_CAS kv k o n ttl now ih
  | removeVersion kv k i e st _ hr ih => exact good_RemoveVersion kv k i e st ih hr
  | loadStep kv _ ih => exact good_load kv ih
  | cleanup kv now _ ih => exact good_cleanup kv now ih

/-- C10: Get never modifies the store: the state after a Get call is
the input state, version map and expiration index included, in the not
found, expired and success outcomes alike; an expired entry is removed
only by Delete or by the cleanup tick, never by a read. -/
theorem claim_C10 (kv : KeyValueStore) (key : String) (now : Int) :
    (Get kv key now).store = kv ∧ (Get kv key now).store.data = kv.data ∧
      (Get kv key now).store.expirations = kv.expirations :=
  ⟨Get_store_eq kv key now, by rw [Get_store_eq], by rw [Get_store_eq]⟩

/-- C9: in every reachable store state, every key of the expiration
index is also present in the version map; reachability closes the
initial construction under Set, Get, Delete, CompareAndSwap,
RemoveVersion, load and the cleanup tick. -/
theorem claim_C9 (kv : KeyValueStore) (h : Reachable kv) : expirationCovered kv :=
  (good_of_reachable kv h).2.2

/-- Witness for C9 at a concrete reachable state. -/
theorem claim_C9_witness : expirationCovered (NewKeyValueStore none [] 0) :=
  claim_C9 _ (Reachable.init none [] 0)

/-- C7: the claim asks for an error and no crash at every out of range
index, but a negative index panics: GetVersion and RemoveVersion guard
only the upper bound before indexing the slice, so version -1 of an
existing reachable key hits the Go runtime, while indices at or above
the length do return the error and leave the store unchanged. -/
theorem claim_C7 :
    Reachable panicStore ∧
    GetVersion panicStore "k" (-1) = .panics ∧
    RemoveVersion panicStore "k" (-1) = .panics ∧
    GetVersion panicStore "k" 1 = .ret "" (some "version not found") ∧
    RemoveVersion panicStore "k" 1 = .ret (some "version not found") panicStore := by
  refine ⟨?_, by decide, by decide, by decide, by decide⟩
  have h0 : Reachable (NewKeyValueStore none [] 0) := Reachable.init none [] 0
  have h1 : Reachable (Set (NewKeyValueStore none [] 0) "k" "v" 0 0).store :=
    Reachable.set _ "k" "v" 0 0 h0
  have he : (Set (NewKeyValueStore none [] 0) "k" "v" 0 0).store = panicStore := by decide
  rwa [he] at h1

/-- C6: Get answers the last version when the key is present and not
expired, fails with the not found error when the key is absent or has no
versions, fails with the expired error when the expiry instant is
strictly past, and GetVersion and GetHistory answer on such an expired
but unswept key regardless of expiry. -/
theorem claim_C6 (kv : KeyValueStore) (key : String) (now : Int) :
    ((lookupKey kv.data key = none ∨ lookupKey kv.data key = some []) →
      Get kv key now = { value := "", error := some "key not found", store := kv }) ∧
    (∀ vs, lookupKey kv.data key = some vs → vs ≠ [] →
      ((∀ e, lookupKey kv.expirations key = some e → e < now →
          Get kv key now = { value := "", error := some "key expired", store := kv }) ∧
       ((∀ e, lookupKey kv.expirations key = some e → ¬ e < now) →
          Get kv key now = { value := lastValue vs, error := none, store := kv }) ∧
       (∀ i : Int, 0 ≤ i → i < (vs.length : Int) →
          GetVersion kv key i = .ret (vs.getD i.toNat ⟨"", 0⟩).value none) ∧
       GetHistory kv key = (some vs, none))) := by
  constructor
  · rintro (h | h) <;> simp [Get, h]
  · intro vs hvs hne
    have hlen : ¬ vs.length = 0 := by simpa using hne
    refine ⟨?_, ?_, ?_, ?_⟩
    · intro e he hlt
      simp [Get, hvs, hlen, he, hlt]
    · intro hall
      unfold Get
      rw [hvs]
      simp only [hlen, if_false]
      rcases he : lookupKey kv.expirations key with _ | e
      · rfl
      · simp [hall e he]
    · intro i h0 hi
      unfold GetVersion
      rw [hvs]
      dsimp only
      rw [if_neg (by omega), if_neg (by omega)]
    · simp [GetHistory, hvs]

/-- Witness for C6 at a concrete expired but unswept key. -/
theorem claim_C6_witness :
    Get expiredStore "k" 10 = { value := "", error := some "key expired", store := expiredStore } ∧
    GetVersion expiredStore "k" 0 = .ret "v" none ∧
    GetHistory expiredStore "k" = (some [⟨"v", 0⟩], none) := by
  have h := (claim_C6 expiredStore "k" 10).2 [⟨"v", 0⟩] (by decide) (by decide)
  exact ⟨h.1 5 (by decide) (by decide), h.2.2.1 0 (by decide) (by decide), h.2.2.2⟩

/-- C1 (amended): CompareAndSwap on a key with no versions returns
false with the not found error and changes nothing; a mismatch of the
latest value returns false with nil error and no mutation of either
map; a match appends the new value and sets the expiry to now plus ttl
when ttl is positive and otherwise deletes the expiry entry, without
the global TTL fallback that Set applies. -/
theorem claim_C1 (kv : KeyValueStore) (key oldV newV : String) (ttl now : Int) :
    ((lookupKey kv.data key = none ∨ lookupKey kv.data key = some []) →
      CompareAndSwap kv key oldV newV ttl now =
        { swapped := false, error := some "key not found", store := kv }) ∧
    (∀ vs, lookupKey kv.data key = some vs → vs ≠ [] → lastValue vs ≠ oldV →
      CompareAndSwap kv key oldV newV ttl now =
        { swapped := false, error := none, store := kv }) ∧
    (∀ vs, lookupKey kv.data key = some vs → vs ≠ [] → lastValue vs = oldV →
      CompareAndSwap kv key oldV newV ttl now =
        { swapped := true, error := none,
          store := { kv with
            data := putKey kv.data key (vs ++ [⟨newV, now⟩]),
            expirations := if 0 < ttl then putKey kv.expirations key (now + ttl)
              else dropKey kv.expirations key } }) := by
  refine ⟨?_, ?_, ?_⟩
  · rintro (h | h) <;> simp [CompareAndSwap, h]
  · intro vs hvs hne hmis
    have hlen : ¬ vs.length = 0 := by simpa using hne
    simp [CompareAndSwap, hvs, hlen, hmis]
  · intro vs hvs hne hmat
    have hlen : ¬ vs.length = 0 := by simpa using hne
    simp [CompareAndSwap, hvs, hlen, hmat]

/-- C1 counterexample: with a positive global TTL and a zero call ttl,
the claim says the successful swap recomputes the expiry exactly as Set
does, giving now plus the global TTL; the code deletes the expiry entry
instead, and Set at the same state keeps it. -/
theorem claim_C1_counterexample :
    Reachable casStore ∧
    (0 : Int) < casStore.globalTTL ∧
    (CompareAndSwap casStore "k" "a" "b" 0 1).swapped = true ∧
    (CompareAndSwap casStore "k" "a" "b" 0 1).error = none ∧
    lookupKey (CompareAndSwap casStore "k" "a" "b" 0 1).store.expirations "k" = none ∧
    lookupKey (Set casStore "k" "b" 0 1).store.expirations "k" = some 6 := by
  refine ⟨?_, by decide, by decide, by decide, by decide, by decide⟩
  have h : NewKeyValueStore (some casFile) [] 5 = casStore := by decide
  exact h ▸ Reachable.init (some casFile) [] 5

/-- Witness for C1 at a concrete successful swap with a positive ttl. -/
theorem claim_C1_witness :
    CompareAndSwap casStore "k" "a" "b" 3 1 =
      { swapped := true, error := none,
        store := { data := [("k", [⟨"a", 0⟩, ⟨"b", 1⟩])], expirations := [("k", 4)],
                   encryptionKey := [], globalTTL := 5, file := some casFile } } := by
  have h := (claim_C1 casStore "k" "a" "b" 3 1).2.2 [⟨"a", 0⟩] (by decide) (by decide) (by decide)
  rw [h]
  decide

/-- C2 (amended): Set never fails, appends exactly one version stamped
with the current instant, resolves the expiry from the call ttl, else
the global TTL, else clears the expiry entry, and emits added when the
key is absent from the version map and updated otherwise; a key present
with an empty version list counts as present and gets updated. -/
theorem claim_C2 (kv : KeyValueStore) (key value : String) (expiration now : Int) :
    (Set kv key value expiration now).error = none ∧
    lookupKey (Set kv key value expiration now).store.data key =
      some ((lookupKey kv.data key).getD [] ++ [⟨value, now⟩]) ∧
    (∀ k', k' ≠ key → lookupKey (Set kv key value expiration now).store.data k' =
      lookupKey kv.data k') ∧
    (Set kv key value expiration now).store.expirations =
      (if 0 < expiration then putKey kv.expirations key (now + expiration)
       else if 0 < kv.globalTTL then putKey kv.expirations key (now + kv.globalTTL)
       else dropKey kv.expirations key) ∧
    (Set kv key value expiration now).event =
      (if (lookupKey kv.data key).isSome then "updated:" ++ key else "added:" ++ key) := by
  refine ⟨rfl, ?_, ?_, rfl, rfl⟩
  · simp [Set, lookupKey_putKey]
  · intro k' hk'
    have : ¬ key = k' := fun h => hk' h.symm
    simp [Set, lookupKey_putKey, this]

/-- C2 counterexample: a reachable key holding an empty version list,
built by removing the only version, has no prior versions, yet Set
emits the updated event for it where the claim requires added. -/
theorem claim_C2_counterexample :
    Reachable { emptyStore with data := [("k", [])] } ∧
    lookupKey ({ emptyStore with data := [("k", [])] } : KeyValueStore).data "k" = some [] ∧
    (Set { emptyStore with data := [("k", [])] } "k" "w" 0 9).event = "updated:" ++ "k" ∧
    "updated:" ++ "k" ≠ "added:" ++ "k" := by
  refine ⟨?_, by decide, by decide, by decide⟩
  have h0 : Reachable (NewKeyValueStore none [] 0) := Reachable.init none [] 0
  have h1 : Reachable (Set (NewKeyValueStore none [] 0) "k" "v" 0 0).store :=
    Reachable.set _ "k" "v" 0 0 h0
  have h2 : RemoveVersion (Set (NewKeyValueStore none [] 0) "k" "v" 0 0).store "k" 0 =
      .ret none { emptyStore with data := [("k", [])] } := by decide
  exact Reachable.removeVersion _ "k" 0 none _ h1 h2

/-- Witness for C2 at a concrete fresh key. -/
theorem claim_C2_witness :
    ("x" : String) ≠ "k" ∧
    lookupKey (Set emptyStore "k" "v" 0 7).store.data "x" = lookupKey emptyStore.data "x" :=
  ⟨by decide, (claim_C2 emptyStore "k" "v" 0 7).2.2.1 "x" (by decide)⟩

/-- C8: two Sets on a fresh key leave exactly the two versions in order,
Get answers the second, GetAllVersions answers both in order, and in
general each Set and each successful CompareAndSwap appends one version
at the end of the sequence without altering the previously appended
ones. -/
theorem claim_C8 (kv : KeyValueStore) (k v1 v2 : String) (n1 n2 tread : Int)
    (h0 : lookupKey kv.data k = none)
    (hread : ∀ e,
      lookupKey (Set (Set kv k v1 0 n1).store k v2 0 n2).store.expirations k = some e →
        ¬ e < tread) :
    (Get (Set (Set kv k v1 0 n1).store k v2 0 n2).store k tread).value = v2 ∧
    (Get (Set (Set kv k v1 0 n1).store k v2 0 n2).store k tread).error = none ∧
    GetAllVersions (Set (Set kv k v1 0 n1).store k v2 0 n2).store k = (some [v1, v2], none) ∧
    (∀ kv' key value e now, lookupKey (Set kv' key value e now).store.data key =
        some ((lookupKey kv'.data key).getD [] ++ [⟨value, now⟩])) ∧
    (∀ kv' key oldV newV ttl now vs, lookupKey kv'.data key = some vs → vs ≠ [] →
        lastValue vs = oldV →
        lookupKey (CompareAndSwap kv' key oldV newV ttl now).store.data key =
          some (vs ++ [⟨newV, now⟩])) := by
  have hs2 : lookupKey (Set (Set kv k v1 0 n1).store k v2 0 n2).store.data k =
      some [⟨v1, n1⟩, ⟨v2, n2⟩] := by
    simp [Set, lookupKey_putKey, h0]
  refine ⟨?_, ?_, ?_, ?_, ?_⟩
  · unfold Get
    rw [hs2]
    dsimp only
    rcases he : lookupKey (Set (Set kv k v1 0 n1).store k v2 0 n2).store.expirations k with _ | e
    · simp [lastValue]
    · simp [hread e he, lastValue]
  · unfold Get
    rw [hs2]
    dsimp only
    rcases he : lookupKey (Set (Set kv k v1 0 n1).store k v2 0 n2).store.expirations k with _ | e
    · simp
    · simp [hread e he]
  · simp [GetAllVersions, hs2]
  · intro kv' key value e now
    simp [Set, lookupKey_putKey]
  · intro kv' key oldV newV ttl now vs hvs hne hmat
    have hlen : ¬ vs.length = 0 := by simpa using hne
    simp [CompareAndSwap, hvs, hlen, hmat, lookupKey_putKey]

/-- Witness for C8 at a concrete fresh key and two values. -/
theorem claim_C8_witness :
    lookupKey emptyStore.data "k" = none ∧
    (Get (Set (Set emptyStore "k" "a" 0 1).store "k" "b" 0 2).store "k" 3).value = "b" ∧
    GetAllVersions (Set (Set emptyStore "k" "a" 0 1).store "k" "b" 0 2).store "k" =
      (some ["a", "b"], none) := by
  have hexp : lookupKey (Set (Set emptyStore "k" "a" 0 1).store "k" "b" 0 2).store.expirations
      "k" = none := by decide
  have h := claim_C8 emptyStore "k" "a" "b" 1 2 3 (by decide)
    (fun e he => by rw [hexp] at he; exact Option.noConfusion he)
  exact ⟨by decide, h.1, h.2.2.1⟩

theorem DecompressData_CompressData (l : Bytes) : DecompressData (CompressData l) = .ok l := rfl

theorem validKeySize_ne_zero (k : Bytes) (h : validKeySize k = true) : k.length ≠ 0 := by
  intro h0
  simp [validKeySize, h0] at h

theorem base64Decode_CompressData (l : Bytes) : base64Decode (CompressData l) = none := by
  have h120 : b64v 120 = some 49 := by decide
  have h156 : b64v 156 = none := by decide
  simp [CompressData, base64Decode, h120, h156]

/-- C4: the claim requires load to accept the older flat on-disk shape
and upgrade it in memory, but the load of store.go only unmarshals the
versioned shape: over a flat format file, load fails with the
unmarshalling error, the store starts empty, and Get returns the not
found error instead of the old value. -/
theorem claim_C4 :
    (load { emptyStore with file := some flatFile }).1 = some "error unmarshalling data" ∧
    (load { emptyStore with file := some flatFile }).2.data = [] ∧
    (NewKeyValueStore (some flatFile) [] 0).data = [] ∧
    (Get (NewKeyValueStore (some flatFile) [] 0) "k1" 0).error = some "key not found" := by
  refine ⟨by decide, by decide, by decide, by decide⟩

/-- C3 (amended): with a configured key the saved file is the base64 of
the AEAD sealing of the zlib compression of the marshalled map, and with
no key it is the raw compressed marshalled bytes without a base64 layer;
reopening the saved file with the same key reconstructs the map exactly,
and loading it with a different valid key fails with a decryption error
and yields no data. -/
theorem claim_C3 (kv : KeyValueStore) (gTTL : Int) (hnd : NodupKeys kv.data) :
    (kv.encryptionKey = [] →
      save kv false = (none, { kv with file := some (CompressData (jsonMarshal kv.data)) }) ∧
      (NewKeyValueStore (Stop kv false).file [] gTTL).data = kv.data) ∧
    (validKeySize kv.encryptionKey = true → ByteValued kv.encryptionKey →
      save kv false = (none, { kv with file := some (base64Encode (gcmNonce ++
        (encNat kv.encryptionKey.length ++ kv.encryptionKey) ++
        CompressData (jsonMarshal kv.data))) }) ∧
      (NewKeyValueStore (Stop kv false).file kv.encryptionKey gTTL).data = kv.data ∧
      (∀ key2, validKeySize key2 = true → key2 ≠ kv.encryptionKey →
        (load { data := [], expirations := [], encryptionKey := key2, globalTTL := gTTL,
                file := (Stop kv false).file }).1.isSome ∧
        (load { data := [], expirations := [], encryptionKey := key2, globalTTL := gTTL,
                file := (Stop kv false).file }).2.data = [])) := by
  constructor
  · intro hk
    have hlen : kv.encryptionKey.length = 0 := by rw [hk]; rfl
    have hsave : save kv false =
        (none, { kv with file := some (CompressData (jsonMarshal kv.data)) }) := by
      unfold save
      dsimp only
      simp [hlen]
    refine ⟨hsave, ?_⟩
    have hmerge := mergeJson_nil kv.data hnd
    unfold NewKeyValueStore load
    dsimp only
    simp [Stop, hsave, DecompressData_CompressData, jsonUnmarshal_jsonMarshal, hmerge]
  · intro hvk hbv
    have hlen : kv.encryptionKey.length ≠ 0 := validKeySize_ne_zero _ hvk
    have hcb : ByteValued (CompressData (jsonMarshal kv.data)) :=
      byteValued_CompressData _ (byteValued_jsonMarshal _)
    have henc := EncryptData_ok (CompressData (jsonMarshal kv.data)) kv.encryptionKey hvk
    have hsave : save kv false = (none, { kv with
        file := some (sealedBox (CompressData (jsonMarshal kv.data)) kv.encryptionKey) }) := by
      unfold save
      dsimp only
      simp [hlen, henc]
    have hdec := DecryptData_EncryptData (CompressData (jsonMarshal kv.data))
      kv.encryptionKey hvk hbv hcb
    have hmerge := mergeJson_nil kv.data hnd
    refine ⟨hsave, ?_, ?_⟩
    · unfold NewKeyValueStore load
      dsimp only
      simp [Stop, hsave, hlen, hdec, DecompressData_CompressData, jsonUnmarshal_jsonMarshal,
        hmerge]
    · intro key2 hk2 hne
      have hlen2 : key2.length ≠ 0 := validKeySize_ne_zero _ hk2
      have hdecw := DecryptData_wrongKey (CompressData (jsonMarshal kv.data))
        kv.encryptionKey key2 hvk hk2 hbv hcb hne
      constructor
      · unfold load
        dsimp only
        simp [Stop, hsave, hlen2, hdecw]
      · unfold load
        dsimp only
        simp [Stop, hsave, hlen2, hdecw]

/-- C3 counterexample: with no encryption key the saved file is exactly
the compressed marshalled bytes and not their base64 encoding, against
the claimed envelope for the unencrypted case. -/
theorem claim_C3_counterexample :
    (save noKeyStore false).2.file = some (CompressData (jsonMarshal noKeyStore.data)) ∧
    (save noKeyStore false).2.file ≠
      some (base64Encode (CompressData (jsonMarshal noKeyStore.data))) := by
  refine ⟨by decide, by decide⟩

/-- Witness for C3 at a concrete store with a 16 byte key. -/
theorem claim_C3_witness :
    NodupKeys encStore.data ∧ validKeySize encStore.encryptionKey = true ∧
    ByteValued encStore.encryptionKey ∧
    (NewKeyValueStore (Stop encStore false).file encStore.encryptionKey 0).data =
      encStore.data :=
  ⟨by decide, by decide, by decide,
    ((claim_C3 encStore 0 (by decide)).2 (by decide) (by decide)).2.1⟩

/-- C5: a key rotation that returns an error at any step leaves the
store in its pre-rotation state, old key and version map untouched; a
rotation that returns nil changes no map content. -/
theorem claim_C5 (kv : KeyValueStore) (newKey : Bytes) (wf : Bool)
    (hnd : NodupKeys kv.data) (hok : ByteValued kv.encryptionKey) (hnk : ByteValued newKey) :
    ((RotateEncryptionKey kv newKey wf).1.isSome →
      (RotateEncryptionKey kv newKey wf).2.encryptionKey = kv.encryptionKey ∧
      (RotateEncryptionKey kv newKey wf).2.data = kv.data) ∧
    ((RotateEncryptionKey kv newKey wf).1 = none →
      ∀ k, lookupKey (RotateEncryptionKey kv newKey wf).2.data k = lookupKey kv.data k) := by
  have hcb : ByteValued (CompressData (jsonMarshal kv.data)) :=
    byteValued_CompressData _ (byteValued_jsonMarshal _)
  by_cases hk0 : kv.encryptionKey.length = 0
  · have hstb : saveToBytes kv = .ok (CompressData (jsonMarshal kv.data)) := by
      unfold saveToBytes
      simp [hk0]
    have hdec : DecryptData (CompressData (jsonMarshal kv.data)) kv.encryptionKey =
        .error "illegal base64 data" := by
      unfold DecryptData
      rw [base64Decode_CompressData]
    have hrot : RotateEncryptionKey kv newKey wf =
        (some ("failed to decrypt data with old key: " ++ "illegal base64 data"), kv) := by
      unfold RotateEncryptionKey
      simp only [hstb, hdec]
    rw [hrot]
    exact ⟨fun _ => ⟨rfl, rfl⟩, fun h => absurd h (by simp)⟩
  · by_cases hvk : validKeySize kv.encryptionKey
    · have hstb : saveToBytes kv =
          .ok (sealedBox (CompressData (jsonMarshal kv.data)) kv.encryptionKey) := by
        unfold saveToBytes
        simp [hk0, EncryptData_ok _ _ hvk]
      have hdec := DecryptData_EncryptData (CompressData (jsonMarshal kv.data))
        kv.encryptionKey hvk hok hcb
      by_cases hvn : validKeySize newKey
      · have hnlen : newKey.length ≠ 0 := validKeySize_ne_zero _ hvn
        have henc := EncryptData_ok (CompressData (jsonMarshal kv.data)) newKey hvn
        have hdec2 := DecryptData_EncryptData (CompressData (jsonMarshal kv.data))
          newKey hvn hnk hcb
        have hmerge := mergeJson_self kv.data hnd
        have hlfb : loadFromBytes { kv with encryptionKey := newKey }
            (sealedBox (CompressData (jsonMarshal kv.data)) newKey) =
            (none, { kv with encryptionKey := newKey, data := kv.data }) := by
          unfold loadFromBytes
          dsimp only
          simp [hnlen, hdec2, DecompressData_CompressData, jsonUnmarshal_jsonMarshal, hmerge]
        cases wf with
        | false =>
          have hrot : RotateEncryptionKey kv newKey false =
              (none, { kv with
                        encryptionKey := newKey,
                        data := kv.data,
                        file := some (sealedBox (CompressData (jsonMarshal kv.data)) newKey) }) := by
            unfold RotateEncryptionKey
            simp only [hstb, hdec, henc, hlfb]
            unfold save
            dsimp only
            simp [hnlen, EncryptData_ok _ _ hvn]
          rw [hrot]
          exact ⟨fun h => absurd h (by simp), fun _ k => rfl⟩
        | true =>
          have hrot : RotateEncryptionKey kv newKey true =
              (some ("failed to save data with new encryption key: " ++ "error writing file"),
               { data := kv.data, expirations := kv.expirations,
                 encryptionKey := kv.encryptionKey, globalTTL := kv.globalTTL,
                 file := kv.file }) := by
            unfold RotateEncryptionKey
            simp only [hstb, hdec, henc, hlfb]
            unfold save
            dsimp only
            simp [hnlen, EncryptData_ok _ _ hvn]
          rw [hrot]
          exact ⟨fun _ => ⟨rfl, rfl⟩, fun h => absurd h (by simp)⟩
      · have henc : EncryptData (CompressData (jsonMarshal kv.data)) newKey =
            .error "crypto/aes: invalid key size" := by
          simp [EncryptData, hvn]
        have hrot : RotateEncryptionKey kv newKey wf =
            (some ("failed to encrypt data with new key: " ++ "crypto/aes: invalid key size"),
             { data := kv.data, expirations := kv.expirations,
               encryptionKey := kv.encryptionKey, globalTTL := kv.globalTTL,
               file := kv.file }) := by
          unfold RotateEncryptionKey
          simp only [hstb, hdec, henc]
        rw [hrot]
        exact ⟨fun _ => ⟨rfl, rfl⟩, fun h => absurd h (by simp)⟩
    · have hstb : saveToBytes kv =
          .error ("error encrypting data: " ++ "crypto/aes: invalid key size") := by
        unfold saveToBytes
        simp [hk0, EncryptData, hvk]
      have hrot : RotateEncryptionKey kv newKey wf =
          (some ("failed to save current data: " ++
            ("error encrypting data: " ++ "crypto/aes: invalid key size")), kv) := by
        unfold RotateEncryptionKey
        simp only [hstb]
      rw [hrot]
      exact ⟨fun _ => ⟨rfl, rfl⟩, fun h => absurd h (by simp)⟩

/-- Witness for C5 at a concrete successful rotation between two 16 byte
keys. -/
theorem claim_C5_witness :
    (RotateEncryptionKey rotStore (List.replicate 16 9) false).1 = none ∧
    lookupKey (RotateEncryptionKey rotStore (List.replicate 16 9) false).2.data "k" =
      lookupKey rotStore.data "k" :=
  ⟨by decide,
    (claim_C5 rotStore (List.replicate 16 9) false (by decide) (by decide) (by decide)).2
      (by decide) "k"⟩

end MiniKV
